import Mathlib

/-!
Verification of python-inspector's distribution-matching and dependency-extraction
core: a shallow embedding of `src/python_inspector/package_data.py` and
`src/python_inspector/pybuilder_support.py`, together with theorems about the
embedded functions.

Strings are modelled as Lean `String`s; the character-level work is done on
`List Char` (Python strings are sequences of code points, and both Python and
Lean compare characters by code point).
-/

namespace PythonInspector

/-- Python truthiness for an optional string: `None` and `""` are falsy. -/
def pyTruthy : Option String → Bool
  | none => false
  | some s => s ≠ ""

/-! ### Character-level helpers (CPython `urllib.parse` / `posixpath` model) -/

/-- Split a character list at the first occurrence of `c`
(Python `str.find` + slicing); `none` when `c` does not occur. -/
def splitFirst (c : Char) : List Char → Option (List Char × List Char)
  | [] => none
  | a :: rest =>
    if a = c then some ([], rest)
    else (splitFirst c rest).map fun p => (a :: p.1, p.2)

/-- `posixpath.basename`: the characters after the last `/`. -/
def posixBasename (l : List Char) : List Char :=
  l.foldl (fun acc c => if c = '/' then [] else acc ++ [c]) []

/-- A character of CPython's `_WHATWG_C0_CONTROL_OR_SPACE` (code points 0x00..0x20). -/
def isC0OrSpace (c : Char) : Bool := c.toNat ≤ 0x20

/-- Strip leading and trailing C0-control/space characters (CPython `urlsplit` step). -/
def stripC0 (l : List Char) : List Char :=
  ((l.dropWhile isC0OrSpace).reverse.dropWhile isC0OrSpace).reverse

/-- Remove CPython's `_UNSAFE_URL_BYTES_TO_REMOVE` (tab, CR, LF) everywhere. -/
def removeUnsafe (l : List Char) : List Char :=
  l.filter fun c => !(c = '\t' || c = '\r' || c = '\n')

/-- ASCII letter test (Python `str.isascii() and str.isalpha()` on one character). -/
def isAsciiAlpha (c : Char) : Bool :=
  ('a' ≤ c && c ≤ 'z') || ('A' ≤ c && c ≤ 'Z')

/-- CPython `scheme_chars`: ASCII letters, digits, and `+`, `-`, `.`. -/
def isSchemeChar (c : Char) : Bool :=
  isAsciiAlpha c || ('0' ≤ c && c ≤ '9') || c = '+' || c = '-' || c = '.'

/-- ASCII lowercasing of one character (schemes are all-ASCII when lowered). -/
def asciiLowerChar (c : Char) : Char :=
  if 'A' ≤ c && c ≤ 'Z' then Char.ofNat (c.toNat + 32) else c

/-- Result of CPython `urllib.parse.urlparse`: scheme, netloc, path, params,
query, fragment, each as a character list. -/
structure UrlParseResult where
  scheme : List Char
  netloc : List Char
  path : List Char
  params : List Char
  query : List Char
  fragment : List Char
deriving DecidableEq

/-- Model of CPython `urllib.parse.urlsplit url scheme0` (with `allow_fragments=True`),
returning scheme, netloc, path-with-params, query, fragment.  The `ValueError`s
CPython raises for malformed bracketed hosts and for non-NFKC netlocs are not
modelled; no URL in this development has a bracketed or non-ASCII netloc. -/
def urlsplitCore (scheme0 : List Char) (url0 : List Char) : List Char × List Char × List Char × List Char × List Char :=
  let url1 := removeUnsafe (stripC0 url0)
  let schemeDefault := removeUnsafe (stripC0 scheme0)
  let schemeUrl : List Char × List Char :=
    match splitFirst ':' url1 with
    | some (pre, rest) =>
      match pre with
      | [] => (schemeDefault, url1)
      | p0 :: ptail =>
        if isAsciiAlpha p0 && ptail.all isSchemeChar then (pre.map asciiLowerChar, rest)
        else (schemeDefault, url1)
    | none => (schemeDefault, url1)
  let scheme := schemeUrl.1
  let url2 := schemeUrl.2
  let netlocUrl : List Char × List Char :=
    match url2 with
    | '/' :: '/' :: rest =>
      (rest.takeWhile (fun c => !(c = '/' || c = '?' || c = '#')),
       rest.dropWhile (fun c => !(c = '/' || c = '?' || c = '#')))
    | _ => ([], url2)
  let netloc := netlocUrl.1
  let url3 := netlocUrl.2
  let urlFrag : List Char × List Char :=
    match splitFirst '#' url3 with
    | some (a, b) => (a, b)
    | none => (url3, [])
  let url4 := urlFrag.1
  let fragment := urlFrag.2
  let urlQuery : List Char × List Char :=
    match splitFirst '?' url4 with
    | some (a, b) => (a, b)
    | none => (url4, [])
  (scheme, netloc, urlQuery.1, urlQuery.2, fragment)

/-- Model of CPython `urllib.parse._splitparams`: split the parameters after `;`
out of the last path segment (or out of the whole path when it has no `/`). -/
def splitParams (path : List Char) : List Char × List Char :=
  if path.contains '/' then
    let base := posixBasename path
    let dir := path.take (path.length - base.length)
    match splitFirst ';' base with
    | some (a, b) => (dir ++ a, b)
    | none => (path, [])
  else
    match splitFirst ';' path with
    | some (a, b) => (a, b)
    | none => (path, [])

/-- Model of CPython `urllib.parse.urlparse url scheme0` (with `allow_fragments=True`). -/
def urlparseCore (scheme0 : List Char) (url : List Char) : UrlParseResult :=
  let s := urlsplitCore scheme0 url
  let netloc := s.2.1
  let path0 := s.2.2.1
  let query := s.2.2.2.1
  let fragment := s.2.2.2.2
  let pp := if path0.contains ';' then splitParams path0 else (path0, [])
  ⟨s.1, netloc, pp.1, pp.2, query, fragment⟩

/-- `urlparse` of a `String` with empty default scheme, as used by the source. -/
def pyUrlparse (url : String) : UrlParseResult :=
  urlparseCore [] url.toList

/-- The filename part the source extracts from a URL:
`posixpath.basename(urlparse(url).path)`. -/
def urlFilename (url : String) : String :=
  String.mk (posixBasename (pyUrlparse url).path)

/-! ### `re.search r"sha256=([a-f0-9]\x7b64\x7d)"` model -/

/-- Lowercase hexadecimal digit (the character class `[a-f0-9]`). -/
def isLowerHexDigit (c : Char) : Bool :=
  ('0' ≤ c && c ≤ '9') || ('a' ≤ c && c ≤ 'f')

/-- Try to match `sha256=` followed by exactly 64 lowercase hex digits at the
head of `l`; on success return the 64 captured characters. -/
def sha256HereMatch (l : List Char) : Option (List Char) :=
  let pat := ['s', 'h', 'a', '2', '5', '6', '=']
  if pat.isPrefixOf l then
    let h := (l.drop pat.length).take 64
    if h.length = 64 && h.all isLowerHexDigit then some h else none
  else none

/-- `re.search` of the pattern over `l`: first (leftmost) position where the
pattern matches. -/
def searchSha256 : List Char → Option (List Char)
  | [] => none
  | c :: rest =>
    match sha256HereMatch (c :: rest) with
    | some h => some h
    | none => searchSha256 rest

/-! ### `get_file_match_key` (package_data.py lines 31-65) -/

/-- Embedding of `get_file_match_key(url, sha256=None)`: extract the
`(filename, sha256)` match key from a download URL.  The filename is the
basename of the parsed URL's path; when the given hash is falsy and the URL has
a fragment, a `sha256=<64 lowercase hex>` match in the fragment supplies the
hash. -/
def get_file_match_key (url : String) (sha256 : Option String) : String × Option String :=
  let parsed := pyUrlparse url
  let filename := posixBasename parsed.path
  let sha :=
    if !pyTruthy sha256 && parsed.fragment ≠ [] then
      match searchSha256 parsed.fragment with
      | some h => some (String.mk h)
      | none => sha256
    else sha256
  (String.mk filename, sha)

/-! ### `urllib.parse.urljoin` model (used by the resolver's index building) -/

/-- CPython `uses_relative` scheme list. -/
def usesRelative : List String :=
  ["", "ftp", "http", "gopher", "nntp", "imap", "wais", "file", "https", "shttp",
   "mms", "prospero", "rtsp", "rtspu", "sftp", "svn", "svn+ssh", "ws", "wss"]

/-- CPython `uses_netloc` scheme list. -/
def usesNetloc : List String :=
  ["", "ftp", "http", "gopher", "nntp", "telnet", "imap", "wais", "file", "mms",
   "https", "shttp", "snews", "prospero", "rtsp", "rtspu", "rsync", "svn",
   "svn+ssh", "sftp", "nfs", "git", "git+ssh", "ws", "wss", "itms-services"]

/-- CPython `urllib.parse.urlunsplit` on character lists. -/
def urlunsplitCore (scheme netloc path query fragment : List Char) : List Char :=
  let url :=
    if netloc ≠ [] ∨ (path ≠ [] ∧ path.take 2 = ['/', '/']) then
      let url1 := if path ≠ [] ∧ path.take 1 ≠ ['/'] then '/' :: path else path
      '/' :: '/' :: (netloc ++ url1)
    else path
  let url := if scheme ≠ [] then scheme ++ ':' :: url else url
  let url := if query ≠ [] then url ++ '?' :: query else url
  if fragment ≠ [] then url ++ '#' :: fragment else url

/-- CPython `urllib.parse.urlunparse` on character lists. -/
def urlunparseCore (scheme netloc path params query fragment : List Char) : List Char :=
  let path := if params ≠ [] then path ++ ';' :: params else path
  urlunsplitCore scheme netloc path query fragment

/-- Python `str.split(c)` on character lists (always at least one piece). -/
def splitOn (c : Char) : List Char → List (List Char)
  | [] => [[]]
  | a :: rest =>
    let r := splitOn c rest
    if a = c then [] :: r
    else
      match r with
      | h :: t => (a :: h) :: t
      | [] => [[a]]

/-- Python `'/'.join` on character lists. -/
def joinSlash : List (List Char) → List Char
  | [] => []
  | [a] => a
  | a :: rest => a ++ '/' :: joinSlash rest

/-- `segments[1:-1] = filter(None, segments[1:-1])`: drop empty segments from
the interior of the list, keeping the first and last elements. -/
def filterInterior : List (List Char) → List (List Char)
  | [] => []
  | [a] => [a]
  | a :: rest =>
    match rest.getLast? with
    | some last => a :: ((rest.dropLast.filter (fun s => s ≠ [])) ++ [last])
    | none => [a]

/-- The segment-resolution loop of CPython `urljoin`: `..` pops (ignoring
underflow), `.` is dropped, other segments are appended. -/
def resolveSegs : List (List Char) → List (List Char) → List (List Char)
  | [], acc => acc
  | seg :: rest, acc =>
    if seg = ['.', '.'] then resolveSegs rest acc.dropLast
    else if seg = ['.'] then resolveSegs rest acc
    else resolveSegs rest (acc ++ [seg])

/-- Model of CPython `urllib.parse.urljoin(base, url)`. -/
def pyUrljoin (base url : String) : String :=
  if base = "" then url
  else if url = "" then base
  else
    let b := urlparseCore [] base.toList
    let u := urlparseCore b.scheme url.toList
    if String.mk u.scheme ≠ String.mk b.scheme ∨ String.mk u.scheme ∉ usesRelative then url
    else
      let early := String.mk u.scheme ∈ usesNetloc ∧ u.netloc ≠ []
      if early then
        String.mk (urlunparseCore u.scheme u.netloc u.path u.params u.query u.fragment)
      else
        let netloc := if String.mk u.scheme ∈ usesNetloc then b.netloc else u.netloc
        if u.path = [] ∧ u.params = [] then
          let query := if u.query = [] then b.query else u.query
          String.mk (urlunparseCore u.scheme netloc b.path b.params query u.fragment)
        else
          let baseParts0 := splitOn '/' b.path
          let baseParts := if baseParts0.getLast? ≠ some [] then baseParts0.dropLast else baseParts0
          let segments :=
            if u.path.take 1 = ['/'] then splitOn '/' u.path
            else filterInterior (baseParts ++ splitOn '/' u.path)
          let resolved := resolveSegs segments []
          let resolved :=
            if segments.getLast? = some ['.'] ∨ segments.getLast? = some ['.', '.'] then
              resolved ++ [[]]
            else resolved
          let joined := joinSlash resolved
          let joined := if joined = [] then ['/'] else joined
          String.mk (urlunparseCore u.scheme netloc joined u.params u.query u.fragment)

/-! ### Python `str.replace` (replaces every non-overlapping occurrence) -/

/-- Replace every non-overlapping occurrence of `pat` (nonempty) in the list,
scanning left to right, as Python `str.replace` does.  The extra `fuel`
argument makes the recursion structural; each step consumes at least one
character, so any fuel at least the list's length gives the untruncated
result. -/
def replaceAllFuel (pat repl : List Char) : Nat → List Char → List Char
  | _, [] => []
  | 0, l => l
  | fuel + 1, c :: rest =>
    if pat.isPrefixOf (c :: rest) ∧ pat ≠ [] then
      repl ++ replaceAllFuel pat repl fuel ((c :: rest).drop pat.length)
    else
      c :: replaceAllFuel pat repl fuel rest

/-- Replace every non-overlapping occurrence of `pat` in `l`, left to right. -/
def replaceAll (pat repl l : List Char) : List Char :=
  replaceAllFuel pat repl l.length l

/-- Python `s.replace(pat, repl)` on strings (for a nonempty pattern). -/
def pyStringReplace (s pat repl : String) : String :=
  String.mk (replaceAll pat.toList repl.toList s.toList)

/-! ### Resolver data model (package_data.py lines 68-257)

The repository layer (`utils_pypi.get_supported_and_valid_wheels`,
`utils_pypi.get_valid_sdist`, the descriptors' `download_url`) and the HTTP
transport (`get_response_async`) are out-of-scope collaborators; they enter the
embedding as oracle functions.  Descriptive metadata fields of the produced
record (description, license, parties, keywords, navigational URLs) are
verbatim outputs of out-of-scope helper collaborators applied to the response's
`info` mapping and are not modelled; the record keeps the fields the resolver
itself computes from the matched file entry. -/

/-- A configured repository (`PypiSimpleRepository`): only its `index_url`
is consumed by the embedded code. -/
structure PypiSimpleRepository where
  index_url : String
deriving DecidableEq

/-- One entry of the JSON API response's `urls` list; `none` models a missing
JSON field (and the digest fields model `digests.get(...)` on the entry's
`digests` mapping, with a missing mapping giving `none` for both). -/
structure UrlEntry where
  url : Option String
  size : Option Int
  digest_md5 : Option String
  digest_sha256 : Option String
  md5_digest : Option String
  upload_time : Option String
deriving DecidableEq

/-- The JSON API response as consumed by the embedded code: its `urls` list
(`response.get("urls") or []`, a falsy value modelled as the empty list). -/
structure PypiResponse where
  urls : List UrlEntry
deriving DecidableEq

/-- The fields of the produced `PackageData` record that the resolver computes
from the matched distribution URL and file entry. -/
structure PackageData where
  download_url : String
  size : Option Int
  md5 : Option String
  sha256 : Option String
  release_date : Option String
deriving DecidableEq

/-- Python `a or b` on two optional strings (falsy `a`, i.e. `None` or `""`,
falls through to `b`), as in `digests.get("md5") or url_data.get("md5_digest")`. -/
def pyOrStr (a b : Option String) : Option String :=
  if pyTruthy a then a else b

/-! ### `choose_single_wheel` (package_data.py lines 191-199) -/

/-- Python string `<`: lexicographic comparison of code-point sequences, a
proper prefix coming first. -/
def pyListLt : List Char → List Char → Bool
  | [], [] => false
  | [], _ :: _ => true
  | _ :: _, [] => false
  | a :: as, b :: bs =>
    if a.toNat < b.toNat then true
    else if b.toNat < a.toNat then false
    else pyListLt as bs

/-- Python `a < b` on strings. -/
def pyStrLt (a b : String) : Bool := pyListLt a.toList b.toList

/-- Python `a <= b` on strings (the order is linear, so `a <= b` is `not (b < a)`). -/
def pyStrLe (a b : String) : Bool := !pyStrLt b a

/-- Insert `x` into a descending-sorted list, keeping it descending. -/
def insertDesc (x : String) : List String → List String
  | [] => [x]
  | y :: ys => if pyStrLt y x then x :: y :: ys else y :: insertDesc x ys

/-- Descending lexicographic sort (`wheel_urls.sort(reverse=True)`).  Python's
sort is modelled by insertion sort: the comparison is a linear order, so the
weakly-descending arrangement of a list's elements is unique and every correct
descending sort produces the same list. -/
def sortDescending : List String → List String
  | [] => []
  | x :: xs => insertDesc x (sortDescending xs)

/-- Embedding of `choose_single_wheel(wheel_urls)`.  The Python function sorts
its argument list in place and returns its first element (or `None` when
empty); the in-place mutation is modelled by returning the post-call list
alongside the result. -/
def choose_single_wheel (wheel_urls : List String) : List String × Option String :=
  let sorted := sortDescending wheel_urls
  (sorted, sorted.head?)

/-! ### `get_sdist_download_url` / `get_wheel_download_urls` (lines 220-257) -/

/-- Embedding of `get_sdist_download_url`: walk the repositories and return the
first repository's valid sdist download URL.  The oracle `sdistOf` composes the
out-of-scope `utils_pypi.get_valid_sdist` with the descriptor's `download_url`
(`none` models a falsy descriptor).  Python falls off the loop and implicitly
returns `None` when no repository has a valid sdist. -/
def get_sdist_download_url (sdistOf : PypiSimpleRepository → Option String) :
    List PypiSimpleRepository → Option String
  | [] => none
  | r :: rest =>
    match sdistOf r with
    | some s => some s
    | none => get_sdist_download_url sdistOf rest

/-- Embedding of `get_wheel_download_urls`: the concatenated download URLs of
every repository's supported-and-valid wheels, in repository order.  The oracle
`wheelsOf` composes the out-of-scope `utils_pypi.get_supported_and_valid_wheels`
with each wheel's `download_url`. -/
def get_wheel_download_urls (wheelsOf : PypiSimpleRepository → List String)
    (repos : List PypiSimpleRepository) : List String :=
  repos.foldr (fun r acc => wheelsOf r ++ acc) []

/-! ### Candidate-list construction (package_data.py lines 108-131) -/

/-- Embedding of the candidate-list construction inside `get_pypi_data_from_purl`:
start from the sdist URL if truthy, keep only truthy entries, and when the list
is empty or `prefer_source` is false, choose a single wheel and, if truthy,
insert it at index 0. -/
def candidateUrls (prefer_source : Bool) (sdist_url : Option String)
    (wheel_urls : List String) : List String :=
  let valid0 : List String :=
    match sdist_url with
    | some s => if s ≠ "" then [s] else []
    | none => []
  let valid := valid0.filter (fun u => u ≠ "")
  if valid.isEmpty ∨ prefer_source = false then
    match (choose_single_wheel wheel_urls).2 with
    | some w => if w ≠ "" then w :: valid else valid
    | none => valid
  else valid

/-! ### Filename index over the response's `urls` (lines 133-149) -/

/-- The index key of one listed file URL: resolve it against the API URL
(`urljoin`) and take the basename of the parsed absolute URL's path. -/
def entryKey (api_url : String) (u : String) : String :=
  urlFilename (pyUrljoin api_url u)

/-- Insert into the filename-keyed dictionary (`urls_by_filename[filename] = url_entry`). -/
def insertKey (d : String → Option UrlEntry) (k : String) (e : UrlEntry) :
    String → Option UrlEntry :=
  fun k' => if k' = k then some e else d k'

/-- Embedding of the `urls_by_filename` dictionary built by folding over the
response's `urls` list: entries with a truthy `url` are keyed by resolved
filename, later entries overwriting earlier ones. -/
def buildUrlsByFilename (api_url : String) (entries : List UrlEntry) :
    String → Option UrlEntry :=
  entries.foldl
    (fun d e =>
      match e.url with
      | some u => if u ≠ "" then insertKey d (entryKey api_url u) e else d
      | none => d)
    (fun _ => none)

/-! ### Candidate matching loop (lines 151-188) -/

/-- The record built for a matched candidate, with the indexed entry's fields
merged in: `size`, `md5` (digests md5 or the `md5_digest` field), `sha256`
(from digests), `upload_time` as the release date. -/
def mkPackageData (dist_url : String) (e : UrlEntry) : PackageData :=
  ⟨dist_url, e.size, pyOrStr e.digest_md5 e.md5_digest, e.digest_sha256, e.upload_time⟩

/-- Embedding of the matching loop: walk the candidate URLs and return the
record for the first one whose filename is a key of the index; `none` when no
candidate's filename is indexed. -/
def matchCandidates (index : String → Option UrlEntry) : List String → Option PackageData
  | [] => none
  | d :: rest =>
    match index (urlFilename d) with
    | none => matchCandidates index rest
    | some e => some (mkPackageData d e)

/-! ### `get_pypi_data_from_purl` (lines 68-188) -/

/-- The JSON API base path (lines 86-92): the first repository's `index_url`
with `/simple` replaced by `/pypi` (Python `str.replace`), or the PyPI.org
default when no repository is configured. -/
def basePathOf (repos : List PypiSimpleRepository) : String :=
  match repos with
  | [] => "https://pypi.org/pypi"
  | r :: _ => pyStringReplace r.index_url "/simple" "/pypi"

/-- The fetched URL (line 94). -/
def apiUrlOf (name : String) (version : Option String)
    (repos : List PypiSimpleRepository) : String :=
  basePathOf repos ++ "/" ++ name ++ "/" ++ version.getD "" ++ "/json"

/-- Embedding of `get_pypi_data_from_purl`.  The purl is given parsed (`name`
and optional `version`); `fetch` is the out-of-scope `get_response_async`
transport (`none` models a missing/failed response); `sdistOf` and `wheelsOf`
are the repository-layer oracles.  The result pairs the outcome — an
`Except.error` models the raised exception — with the list of JSON API URLs
fetched during the call. -/
def get_pypi_data_from_purl (name : String) (version : Option String)
    (repos : List PypiSimpleRepository) (prefer_source : Bool)
    (fetch : String → Option PypiResponse)
    (sdistOf : PypiSimpleRepository → Option String)
    (wheelsOf : PypiSimpleRepository → List String) :
    Except String (Option PackageData) × List String :=
  if !pyTruthy version then
    (Except.error "Version is not specified in the purl", [])
  else
    let api_url := apiUrlOf name version repos
    match fetch api_url with
    | none => (Except.ok none, [api_url])
    | some response =>
      let sdist_url := get_sdist_download_url sdistOf repos
      let wheel_urls := get_wheel_download_urls wheelsOf repos
      let valid := candidateUrls prefer_source sdist_url wheel_urls
      let index := buildUrlsByFilename api_url response.urls
      (Except.ok (matchCandidates index valid), [api_url])

/-! ### Static dependency extraction (pybuilder_support.py)

The `ast` module is an out-of-scope collaborator: `ast.parse` is modelled by an
`Option` over a mini Python expression syntax (`none` models a `SyntaxError`),
and `ast.NodeVisitor.generic_visit`'s depth-first pre-order traversal over the
parsed module is modelled by a recursive walk.  A module is given as the list
of expressions its statements contain, in source order, which is exactly what
the visitor's traversal order exposes to `visit_Call`. -/

/-- Mini Python expression AST: the node shapes `parse_pybuilder_dependencies`
distinguishes.  `constStr` is an `ast.Constant` holding a string, `constOther`
a constant of any other type, `joinedStr` an f-string, and `otherExpr` any
other expression node together with its child expressions. -/
inductive PyExpr where
  | name : String → PyExpr
  | constStr : String → PyExpr
  | constOther : PyExpr
  | attribute : PyExpr → String → PyExpr
  | call : PyExpr → List PyExpr → PyExpr
  | joinedStr : List PyExpr → PyExpr
  | otherExpr : List PyExpr → PyExpr

/-- One extracted dependency (`models.DependentPackage` fields the extractor sets). -/
structure DependentPackage where
  purl : String
  extracted_requirement : String
  scope : String
deriving DecidableEq

/-- `PYB_CALL_ATTRS`: recognized attribute names and their scopes. -/
def PYB_CALL_ATTRS : List (String × String) :=
  [("depends_on", "install"), ("build_depends_on", "build"), ("test_depends_on", "test")]

/-- The scope for an attribute name (`PYB_CALL_ATTRS[func.attr]`), `none` when
the attribute is not a recognized declaration name. -/
def pybScope (attr : String) : Option String :=
  (PYB_CALL_ATTRS.find? (fun p => p.1 = attr)).map (fun p => p.2)

/-- Python ASCII whitespace, for `str.strip()` (non-ASCII Unicode whitespace is
not modelled; no string in this development contains any). -/
def pyIsSpace (c : Char) : Bool :=
  c = ' ' || c = '\t' || c = '\n' || c = '\x0b' || c = '\x0c' || c = '\r'

/-- Python `str.strip()`. -/
def pyStrip (s : String) : String :=
  String.mk (((s.toList.dropWhile pyIsSpace).reverse.dropWhile pyIsSpace).reverse)

/-- The `_const` helper: a literal string constant's stripped value, `none` for
every other node. -/
def pyConst : PyExpr → Option String
  | PyExpr.constStr s => some (pyStrip s)
  | _ => none

/-- The record the visitor appends for a recognized call with first argument
`a0`, remaining arguments `rest`, and scope `scope`; `none` when the first
argument is not a truthy literal string. -/
def depOfArgs (scope : String) (a0 : PyExpr) (rest : List PyExpr) :
    Option DependentPackage :=
  let name := pyConst a0
  let spec := match rest with
    | a1 :: _ => pyConst a1
    | [] => none
  match name with
  | some n =>
    if n ≠ "" then
      some ⟨"pkg:pypi/" ++ n, if pyTruthy spec then n ++ spec.getD "" else n, scope⟩
    else none
  | none => none

/-- The records `visit_Call` appends at one call node (before recursing):
nonempty only when the callee is `project.<recognized-attr>` and the first
argument is a truthy literal string. -/
def callRecord (f : PyExpr) (args : List PyExpr) : List DependentPackage :=
  match f with
  | PyExpr.attribute (PyExpr.name recv) attr =>
    match pybScope attr with
    | some scope =>
      if recv = "project" then
        match args with
        | [] => []
        | a0 :: rest =>
          match depOfArgs scope a0 rest with
          | some d => [d]
          | none => []
      else []
    | none => []
  | PyExpr.attribute _ attr =>
    match pybScope attr with
    | some _ => []
    | none => []
  | _ => []

mutual

/-- Depth-first pre-order walk of one expression, collecting the visitor's
records: at a call node the node's own record (if any) comes first, then the
records found inside the callee, then those inside the arguments. -/
def visitExpr : PyExpr → List DependentPackage
  | PyExpr.name _ => []
  | PyExpr.constStr _ => []
  | PyExpr.constOther => []
  | PyExpr.attribute v _ => visitExpr v
  | PyExpr.call f args => callRecord f args ++ (visitExpr f ++ visitList args)
  | PyExpr.joinedStr parts => visitList parts
  | PyExpr.otherExpr children => visitList children

/-- Walk a list of expressions in order. -/
def visitList : List PyExpr → List DependentPackage
  | [] => []
  | e :: rest => visitExpr e ++ visitList rest

end

/-- Embedding of `parse_pybuilder_dependencies`: the collaborator `ast.parse`
outcome is the input — `none` models a `SyntaxError` (the `except SyntaxError`
branch returns the empty list), `some stmts` the parsed module's expressions in
source order. -/
def parse_pybuilder_dependencies (parsed : Option (List PyExpr)) :
    List DependentPackage :=
  match parsed with
  | none => []
  | some stmts => visitList stmts

/-! ## Helper lemmas -/

/-- Weakly descending: no element is less than a later one. -/
def DescSorted (l : List String) : Prop :=
  List.Pairwise (fun a b => pyStrLt a b = false) l

theorem pyListLt_irrefl : ∀ l : List Char, pyListLt l l = false := by
  intro l
  induction l with
  | nil => rfl
  | cons a as ih => simp [pyListLt, ih]

theorem pyListLt_asymm :
    ∀ a b : List Char, pyListLt a b = true → pyListLt b a = false := by
  intro a
  induction a with
  | nil =>
    intro b h
    cases b with
    | nil => simp [pyListLt] at h
    | cons y ys => simp [pyListLt]
  | cons x xs ih =>
    intro b h
    cases b with
    | nil => simp [pyListLt] at h
    | cons y ys =>
      simp only [pyListLt] at h ⊢
      split_ifs at h ⊢ with h1 h2 h3
      all_goals first
        | rfl
        | omega
        | (exact ih ys h)

theorem pyListLt_trans :
    ∀ a b c : List Char, pyListLt a b = true → pyListLt b c = true →
      pyListLt a c = true := by
  intro a
  induction a with
  | nil =>
    intro b c hab hbc
    cases b with
    | nil => simp [pyListLt] at hab
    | cons y ys =>
      cases c with
      | nil => simp [pyListLt] at hbc
      | cons z zs => simp [pyListLt]
  | cons x xs ih =>
    intro b c hab hbc
    cases b with
    | nil => simp [pyListLt] at hab
    | cons y ys =>
      cases c with
      | nil => simp [pyListLt] at hbc
      | cons z zs =>
        simp only [pyListLt] at hab hbc ⊢
        split_ifs at hab hbc ⊢ with h1 h2 h3 h4 h5 h6
        all_goals first
          | rfl
          | omega
          | (exact ih ys zs hab hbc)

theorem pyStrLt_asymm {a b : String} (h : pyStrLt a b = true) :
    pyStrLt b a = false :=
  pyListLt_asymm a.toList b.toList h

theorem pyStrLt_not_lt_of_lt_of_not_lt {x y z : String}
    (hyx : pyStrLt y x = true) (hyz : pyStrLt y z = false) :
    pyStrLt x z = false := by
  by_contra h
  have hx : pyStrLt x z = true := by
    cases hxz : pyStrLt x z with
    | true => rfl
    | false => exact absurd hxz h
  have : pyStrLt y z = true := pyListLt_trans _ _ _ hyx hx
  rw [this] at hyz
  exact Bool.noConfusion hyz

theorem insertDesc_perm (x : String) (l : List String) :
    (insertDesc x l).Perm (x :: l) := by
  induction l with
  | nil => exact List.Perm.refl _
  | cons y ys ih =>
    simp only [insertDesc]
    split_ifs with h
    · exact List.Perm.refl _
    · exact (ih.cons y).trans (List.Perm.swap x y ys)

theorem sortDescending_perm (l : List String) : (sortDescending l).Perm l := by
  induction l with
  | nil => exact List.Perm.refl _
  | cons x xs ih =>
    exact (insertDesc_perm x (sortDescending xs)).trans (ih.cons x)

theorem insertDesc_sorted {l : List String} (x : String) (h : DescSorted l) :
    DescSorted (insertDesc x l) := by
  induction l with
  | nil => simp [insertDesc, DescSorted]
  | cons y ys ih =>
    rcases List.pairwise_cons.mp h with ⟨hy, hys⟩
    simp only [insertDesc]
    split_ifs with hlt
    · refine List.pairwise_cons.mpr ⟨?_, h⟩
      intro z hz
      rcases List.mem_cons.mp hz with rfl | hz
      · exact pyStrLt_asymm hlt
      · exact pyStrLt_not_lt_of_lt_of_not_lt hlt (hy z hz)
    · refine List.pairwise_cons.mpr ⟨?_, ih hys⟩
      intro z hz
      have hz' : z ∈ x :: ys := (insertDesc_perm x ys).mem_iff.mp hz
      rcases List.mem_cons.mp hz' with rfl | hz'
      · exact Bool.eq_false_iff.mpr hlt
      · exact hy z hz'

theorem sortDescending_sorted (l : List String) : DescSorted (sortDescending l) := by
  induction l with
  | nil => simp [sortDescending, DescSorted]
  | cons x xs ih => exact insertDesc_sorted x ih

theorem descSorted_head_max {m : String} {t : List String}
    (h : DescSorted (m :: t)) : ∀ x ∈ m :: t, pyStrLe x m = true := by
  intro x hx
  rcases List.mem_cons.mp hx with rfl | hx
  · simp [pyStrLe, pyStrLt, pyListLt_irrefl]
  · rcases List.pairwise_cons.mp h with ⟨hm, _⟩
    simp [pyStrLe, hm x hx]

/-! ## Claims -/

/-- C6: `choose_single_wheel` of the empty list returns `None`, and of any
non-empty list returns the lexicographically greatest element (strings compared
as opaque code-point sequences, Python's string order). -/
theorem choose_single_wheel_max :
    (choose_single_wheel []).2 = none ∧
    ∀ l : List String, l ≠ [] →
      ∃ m, (choose_single_wheel l).2 = some m ∧ m ∈ l ∧
        ∀ x ∈ l, pyStrLe x m = true := by
  refine ⟨rfl, ?_⟩
  intro l hl
  have hperm := sortDescending_perm l
  have hsorted := sortDescending_sorted l
  cases hs : sortDescending l with
  | nil =>
    exact absurd (hs ▸ hperm : List.Perm [] l).symm.eq_nil hl
  | cons m t =>
    refine ⟨m, ?_, ?_, ?_⟩
    · simp [choose_single_wheel, hs]
    · exact hperm.subset (hs ▸ List.mem_cons_self m t)
    · intro x hx
      have hx' : x ∈ m :: t := hs ▸ hperm.symm.subset hx
      exact descSorted_head_max (hs ▸ hsorted) x hx'

/-- Witness for C6 at a concrete input. -/
theorem choose_single_wheel_max_witness :
    ∃ m, (choose_single_wheel ["https://h/a.whl", "https://h/b.whl"]).2 = some m ∧
      m ∈ ["https://h/a.whl", "https://h/b.whl"] ∧
      ∀ x ∈ ["https://h/a.whl", "https://h/b.whl"], pyStrLe x m = true :=
  choose_single_wheel_max.2 ["https://h/a.whl", "https://h/b.whl"] (by decide)

/-- C10: `choose_single_wheel` mutates its argument: the caller's list after
the call is a permutation of the original, arranged in weakly descending
lexicographic order — and, as the concrete instance shows, the original order
is in general not preserved. -/
theorem choose_single_wheel_sorts_in_place :
    (∀ l : List String, ((choose_single_wheel l).1).Perm l ∧
       DescSorted (choose_single_wheel l).1) ∧
    (choose_single_wheel ["https://h/a.whl", "https://h/b.whl"]).1 =
      ["https://h/b.whl", "https://h/a.whl"] ∧
    (["https://h/b.whl", "https://h/a.whl"] : List String) ≠
      ["https://h/a.whl", "https://h/b.whl"] := by
  refine ⟨fun l => ⟨sortDescending_perm l, sortDescending_sorted l⟩, by decide, by decide⟩

/-- C7: when parsing the build script fails (the collaborator `ast.parse`
raises `SyntaxError`, modelled by the `none` input), `parse_pybuilder_dependencies`
returns the empty list instead of propagating the exception. -/
theorem parse_pybuilder_dependencies_parse_failure :
    parse_pybuilder_dependencies none = [] := rfl

/-- The three-call build script of the recognized-calls claim, as parsed
expressions: `project.depends_on("requests","~=2.32")`,
`project.build_depends_on("wheel",">=0.42.0")`,
`project.test_depends_on("pytest","==8.1.0")`. -/
def pybScript3 : List PyExpr :=
  [PyExpr.call (PyExpr.attribute (PyExpr.name "project") "depends_on")
     [PyExpr.constStr "requests", PyExpr.constStr "~=2.32"],
   PyExpr.call (PyExpr.attribute (PyExpr.name "project") "build_depends_on")
     [PyExpr.constStr "wheel", PyExpr.constStr ">=0.42.0"],
   PyExpr.call (PyExpr.attribute (PyExpr.name "project") "test_depends_on")
     [PyExpr.constStr "pytest", PyExpr.constStr "==8.1.0"]]

/-- C8: a call is recognized only when the attribute is one of the three
declaration names and the receiver is the bare identifier `project`
(`other_object.depends_on("x")` yields nothing); the three-call script yields
exactly the three records, with the version spec appended to the name with no
delimiter and scopes `install`, `build`, `test`. -/
theorem parse_pybuilder_recognized_calls :
    parse_pybuilder_dependencies (some pybScript3) =
      [⟨"pkg:pypi/requests", "requests~=2.32", "install"⟩,
       ⟨"pkg:pypi/wheel", "wheel>=0.42.0", "build"⟩,
       ⟨"pkg:pypi/pytest", "pytest==8.1.0", "test"⟩] ∧
    parse_pybuilder_dependencies
      (some [PyExpr.call (PyExpr.attribute (PyExpr.name "other_object") "depends_on")
        [PyExpr.constStr "x"]]) = [] ∧
    (∀ recv attr args, recv ≠ "project" →
       visitExpr (PyExpr.call (PyExpr.attribute (PyExpr.name recv) attr) args) =
         visitList args) ∧
    (∀ f attr args, pybScope attr = none →
       visitExpr (PyExpr.call (PyExpr.attribute f attr) args) =
         visitExpr f ++ visitList args) := by
  refine ⟨by decide, by decide, ?_, ?_⟩
  · intro recv attr args h
    cases hp : pybScope attr <;>
      simp [visitExpr, callRecord, hp, h]
  · intro f attr args hp
    cases f <;> simp [visitExpr, callRecord, hp]

/-- Witness for C8 at a concrete input. -/
theorem parse_pybuilder_recognized_calls_witness :
    visitExpr (PyExpr.call (PyExpr.attribute (PyExpr.name "other_object") "depends_on")
      [PyExpr.constStr "x"]) = visitList [PyExpr.constStr "x"] :=
  parse_pybuilder_recognized_calls.2.2.1 "other_object" "depends_on"
    [PyExpr.constStr "x"] (by decide)

/-- C9 counterexample: `project.depends_on("requests", version_var)` — a
recognized call whose second argument is a non-literal identifier — is not
skipped: the code emits a record with the bare name as the requirement,
contradicting the claim that no record is emitted for such a call. -/
theorem parse_pybuilder_nonliteral_counterexample :
    parse_pybuilder_dependencies
      (some [PyExpr.call (PyExpr.attribute (PyExpr.name "project") "depends_on")
        [PyExpr.constStr "requests", PyExpr.name "version_var"]]) =
      [⟨"pkg:pypi/requests", "requests", "install"⟩] ∧
    ([⟨"pkg:pypi/requests", "requests", "install"⟩] : List DependentPackage) ≠ [] :=
  ⟨by decide, by decide⟩

/-- C9 amended: a recognized call whose FIRST argument is non-literal is
silently skipped (no record for that call, traversal continues); a non-literal
SECOND argument does not skip the call — the record is emitted with the bare
name and the version suffix dropped; and skipping never aborts extraction of
the remaining declarations (the walk distributes over concatenation), as the
concrete two-call script shows. -/
theorem parse_pybuilder_nonliteral_skip :
    (∀ attr a0 rest, pyConst a0 = none →
       visitExpr (PyExpr.call (PyExpr.attribute (PyExpr.name "project") attr)
           (a0 :: rest)) =
         visitList (a0 :: rest)) ∧
    (∀ attr scope n a0 a1 rest, pybScope attr = some scope → pyConst a0 = some n →
       n ≠ "" → pyConst a1 = none →
       visitExpr (PyExpr.call (PyExpr.attribute (PyExpr.name "project") attr)
           (a0 :: a1 :: rest)) =
         ⟨"pkg:pypi/" ++ n, n, scope⟩ :: visitList (a0 :: a1 :: rest)) ∧
    (∀ es1 es2 : List PyExpr, visitList (es1 ++ es2) = visitList es1 ++ visitList es2) ∧
    parse_pybuilder_dependencies
      (some [PyExpr.call (PyExpr.attribute (PyExpr.name "project") "depends_on")
               [PyExpr.name "pkg_var"],
             PyExpr.call (PyExpr.attribute (PyExpr.name "project") "test_depends_on")
               [PyExpr.constStr "pytest"]]) =
      [⟨"pkg:pypi/pytest", "pytest", "test"⟩] := by
  refine ⟨?_, ?_, ?_, by decide⟩
  · intro attr a0 rest h
    cases hp : pybScope attr <;>
      simp [visitExpr, callRecord, depOfArgs, hp, h]
  · intro attr scope n a0 a1 rest hp hn hne hs
    simp [visitExpr, callRecord, depOfArgs, hp, hn, hne, hs, pyTruthy]
  · intro es1 es2
    induction es1 with
    | nil => simp [visitList]
    | cons e es ih => simp [visitList, ih]

/-- Witness for C9's amended theorem at a concrete input. -/
theorem parse_pybuilder_nonliteral_skip_witness :
    visitExpr (PyExpr.call (PyExpr.attribute (PyExpr.name "project") "depends_on")
      [PyExpr.name "pkg_var"]) = visitList [PyExpr.name "pkg_var"] :=
  parse_pybuilder_nonliteral_skip.1 "depends_on" (PyExpr.name "pkg_var") [] (by decide)

/-- The sdist part of the candidate list: the sdist URL when truthy. -/
def sdistCandidates (sd : Option String) : List String :=
  match sd with
  | some s => if s ≠ "" then [s] else []
  | none => []

/-- The wheel part inserted at the front of the candidate list: the chosen
wheel when truthy. -/
def insertedWheel (ws : List String) : List String :=
  match (choose_single_wheel ws).2 with
  | some w => if w ≠ "" then [w] else []
  | none => []

/-- C2 counterexample: with `prefer_source = false`, an available sdist and no
wheels, the candidate list still has the sdist first — refuting the claimed
"sdist first exactly when prefer_source is true and an sdist is available". -/
theorem candidateUrls_sdist_first_counterexample :
    ¬(((candidateUrls false (some "https://h/sdist-1.0.tar.gz") []).head? =
        some "https://h/sdist-1.0.tar.gz") ↔
      (false = true ∧ pyTruthy (some "https://h/sdist-1.0.tar.gz") = true)) := by
  decide

/-- C2 amended: the wheel-selection branch runs iff no truthy sdist URL was
found or `prefer_source` is false; when it does not run the candidates are just
the sdist; when it runs the (truthy) chosen wheel is inserted ahead of any
sdist candidate; consequently the sdist is first exactly when it is available
and either `prefer_source` is true or no truthy wheel was chosen, and whenever
a truthy wheel is inserted it leads. -/
theorem candidateUrls_ordering :
    (∀ (ps : Bool) sd ws, ps = true → pyTruthy sd = true →
       candidateUrls ps sd ws = sdistCandidates sd) ∧
    (∀ (ps : Bool) sd ws, pyTruthy sd = false ∨ ps = false →
       candidateUrls ps sd ws = insertedWheel ws ++ sdistCandidates sd) ∧
    (∀ (ps : Bool) sd ws, pyTruthy sd = true → ps = true ∨ insertedWheel ws = [] →
       (candidateUrls ps sd ws).head? = sd) ∧
    (∀ (ps : Bool) sd ws w, pyTruthy sd = false ∨ ps = false →
       insertedWheel ws = [w] → (candidateUrls ps sd ws).head? = some w) := by
  have hA : ∀ (ps : Bool) sd ws, ps = true → pyTruthy sd = true →
      candidateUrls ps sd ws = sdistCandidates sd := by
    intro ps sd ws hps hsd
    subst hps
    cases sd with
    | none => simp [pyTruthy] at hsd
    | some s =>
      have hs : s ≠ "" := by simpa [pyTruthy] using hsd
      simp [candidateUrls, sdistCandidates, hs]
  have hB : ∀ (ps : Bool) sd ws, pyTruthy sd = false ∨ ps = false →
      candidateUrls ps sd ws = insertedWheel ws ++ sdistCandidates sd := by
    intro ps sd ws h
    have hsplit :
        candidateUrls ps sd ws = insertedWheel ws ++ sdistCandidates sd := by
      cases sd with
      | none =>
        cases hc : (choose_single_wheel ws).2 with
        | none => simp [candidateUrls, sdistCandidates, insertedWheel, hc]
        | some w =>
          by_cases hw : w = "" <;>
            simp [candidateUrls, sdistCandidates, insertedWheel, hc, hw]
      | some s =>
        by_cases hs : s = ""
        · subst hs
          cases hc : (choose_single_wheel ws).2 with
          | none => simp [candidateUrls, sdistCandidates, insertedWheel, hc]
          | some w =>
            by_cases hw : w = "" <;>
              simp [candidateUrls, sdistCandidates, insertedWheel, hc, hw]
        · have hps : ps = false := by
            rcases h with h | h
            · simp [pyTruthy, hs] at h
            · exact h
          subst hps
          cases hc : (choose_single_wheel ws).2 with
          | none => simp [candidateUrls, sdistCandidates, insertedWheel, hc, hs]
          | some w =>
            by_cases hw : w = "" <;>
              simp [candidateUrls, sdistCandidates, insertedWheel, hc, hw, hs]
    exact hsplit
  refine ⟨hA, hB, ?_, ?_⟩
  · intro ps sd ws hsd hcase
    cases sd with
    | none => simp [pyTruthy] at hsd
    | some s =>
      have hs : s ≠ "" := by simpa [pyTruthy] using hsd
      rcases hcase with hps | hwheel
      · rw [hA ps (some s) ws hps hsd]
        simp [sdistCandidates, hs]
      · cases hps : ps with
        | true =>
          rw [hA true (some s) ws rfl hsd]
          simp [sdistCandidates, hs]
        | false =>
          rw [hB false (some s) ws (Or.inr rfl), hwheel]
          simp [sdistCandidates, hs]
  · intro ps sd ws w h hwheel
    rw [hB ps sd ws h, hwheel]
    simp

/-- Witness for C2's amended theorem at a concrete input. -/
theorem candidateUrls_ordering_witness :
    candidateUrls false (some "https://h/s.tar.gz") ["https://h/w.whl"] =
      insertedWheel ["https://h/w.whl"] ++ sdistCandidates (some "https://h/s.tar.gz") :=
  candidateUrls_ordering.2.1 false (some "https://h/s.tar.gz") ["https://h/w.whl"]
    (Or.inr rfl)

/-- A sample 64-lowercase-hex sha256 value. -/
def sampleSha256Hash : String :=
  "aaaaaaaaaaaaaaaaaaaaaaaaaaaaaaaaaaaaaaaaaaaaaaaaaaaaaaaaaaaaaaaa"

/-- C3 counterexample: supplying the (explicit but empty) hash `""` does not
override a fragment-derived hash — the code's truthiness test treats `""` as
not supplied, so the fragment's value wins, refuting "the explicitly supplied
sha256 argument whenever one is supplied (overriding any fragment)". -/
theorem get_file_match_key_empty_supplied_counterexample :
    (get_file_match_key ("https://host/f.whl#sha256=" ++ sampleSha256Hash)
        (some "")).2 ≠ some "" ∧
    (get_file_match_key ("https://host/f.whl#sha256=" ++ sampleSha256Hash)
        (some "")).2 = some sampleSha256Hash :=
  ⟨by decide, by decide⟩

/-- C3 amended: the filename is the last segment of the URL's path component
(so query string, fragment and `../` segments elsewhere in the URL do not
affect it, as the concrete instance shows); the hash is the supplied sha256
argument whenever a NON-EMPTY one is supplied (overriding any fragment),
otherwise the value of a `sha256=<64 lowercase hex>` fragment match when the
fragment contains one — any match is exactly 64 lowercase hex characters, so
uppercase hex is never matched — and otherwise the supplied falsy value
(absent). -/
theorem get_file_match_key_spec :
    (∀ url sha, (get_file_match_key url sha).1 =
       String.mk (posixBasename (pyUrlparse url).path)) ∧
    (∀ url sha, pyTruthy sha = true → (get_file_match_key url sha).2 = sha) ∧
    (∀ url sha, pyTruthy sha = false →
       (get_file_match_key url sha).2 =
         (match searchSha256 (pyUrlparse url).fragment with
          | some h => some (String.mk h)
          | none => sha)) ∧
    (∀ frag h, searchSha256 frag = some h →
       (h.length = 64 && h.all isLowerHexDigit) = true) ∧
    get_file_match_key "https://host/a/../b/f.whl?x=1#other" none = ("f.whl", none) := by
  refine ⟨?_, ?_, ?_, ?_, by decide⟩
  · intro url sha
    rfl
  · intro url sha h
    simp [get_file_match_key, h]
  · intro url sha h
    cases hf : (pyUrlparse url).fragment with
    | nil => simp [get_file_match_key, h, hf, searchSha256]
    | cons c rest => simp [get_file_match_key, h, hf]
  · intro frag
    induction frag with
    | nil => intro h hh; simp [searchSha256] at hh
    | cons c rest ih =>
      intro h hh
      simp only [searchSha256] at hh
      cases hm : sha256HereMatch (c :: rest) with
      | some h' =>
        rw [hm] at hh
        have hh' : h' = h := by injection hh
        subst hh'
        simp only [sha256HereMatch] at hm
        split_ifs at hm with h1 h2
        have : ((c :: rest).drop 7).take 64 = h' := by injection hm
        rw [← this]
        simpa using h2
      | none =>
        rw [hm] at hh
        exact ih h hh

/-- Witness for C3's amended theorem at a concrete input. -/
theorem get_file_match_key_spec_witness :
    (get_file_match_key "https://host/f.whl#sha256=deadbeef"
        (some "suppliedhash")).2 = some "suppliedhash" :=
  get_file_match_key_spec.2.1 "https://host/f.whl#sha256=deadbeef"
    (some "suppliedhash") (by decide)

/-- C4: `get_pypi_data_from_purl` raises an exception exactly when the parsed
purl has no (truthy) version, and raises before any network request — the
fetched-URL trace is empty; a missing or failed JSON API response never raises
and yields no result. -/
theorem get_pypi_data_from_purl_error_handling :
    ∀ name version repos (ps : Bool) fetch sdistOf wheelsOf,
      ((∃ msg, (get_pypi_data_from_purl name version repos ps fetch sdistOf wheelsOf).1 =
          Except.error msg) ↔ pyTruthy version = false) ∧
      (pyTruthy version = false →
        get_pypi_data_from_purl name version repos ps fetch sdistOf wheelsOf =
          (Except.error "Version is not specified in the purl", [])) ∧
      (pyTruthy version = true → fetch (apiUrlOf name version repos) = none →
        get_pypi_data_from_purl name version repos ps fetch sdistOf wheelsOf =
          (Except.ok none, [apiUrlOf name version repos])) := by
  intro name version repos ps fetch sdistOf wheelsOf
  by_cases hv : pyTruthy version = true
  · have hok : ∃ v, (get_pypi_data_from_purl name version repos ps fetch
        sdistOf wheelsOf).1 = Except.ok v := by
      cases hf : fetch (apiUrlOf name version repos) with
      | none => exact ⟨none, by simp [get_pypi_data_from_purl, hv, hf]⟩
      | some r =>
        exact ⟨matchCandidates
            (buildUrlsByFilename (apiUrlOf name version repos) r.urls)
            (candidateUrls ps (get_sdist_download_url sdistOf repos)
              (get_wheel_download_urls wheelsOf repos)),
          by simp [get_pypi_data_from_purl, hv, hf]⟩
    refine ⟨?_, ?_, ?_⟩
    · constructor
      · rintro ⟨msg, hmsg⟩
        obtain ⟨v, hv'⟩ := hok
        rw [hv'] at hmsg
        exact Except.noConfusion hmsg
      · intro hfalse
        rw [hv] at hfalse
        exact Bool.noConfusion hfalse
    · intro hfalse
      rw [hv] at hfalse
      exact Bool.noConfusion hfalse
    · intro _ hf
      simp [get_pypi_data_from_purl, hv, hf]
  · have hv' : pyTruthy version = false := Bool.eq_false_iff.mpr hv
    refine ⟨?_, ?_, ?_⟩
    · exact ⟨fun _ => hv',
        fun _ => ⟨"Version is not specified in the purl",
          by simp [get_pypi_data_from_purl, hv']⟩⟩
    · intro _
      simp [get_pypi_data_from_purl, hv']
    · intro htrue
      rw [htrue] at hv'
      exact Bool.noConfusion hv'

/-- Witness for C4 at a concrete input. -/
theorem get_pypi_data_from_purl_error_handling_witness :
    get_pypi_data_from_purl "foo" none [] false (fun _ => none) (fun _ => none)
        (fun _ => []) =
      (Except.error "Version is not specified in the purl", []) :=
  (get_pypi_data_from_purl_error_handling "foo" none [] false (fun _ => none)
    (fun _ => none) (fun _ => [])).2.1 rfl

/-- Modelled from the spec claim's words: replace only the conventional
trailing `/simple` suffix of the index URL with `/pypi`, leaving the rest of
the string unchanged. -/
def specSimpleSuffixToPypi (s : String) : String :=
  if ("/simple".toList).isSuffixOf s.toList then
    String.mk (s.toList.take (s.toList.length - 7) ++ "/pypi".toList)
  else s

/-- C5 counterexample: Python `str.replace` replaces every occurrence of
`/simple`, not only a trailing suffix — for the index URL
`https://simple.example.org/simple` the code fetches from
`https://pypi.example.org/pypi/...` (the host part is rewritten too), not from
the suffix-only `https://simple.example.org/pypi/...`. -/
theorem basePath_replace_counterexample :
    (get_pypi_data_from_purl "foo" (some "1.0")
        [⟨"https://simple.example.org/simple"⟩]
        false (fun _ => none) (fun _ => none) (fun _ => [])).2 =
      ["https://pypi.example.org/pypi/foo/1.0/json"] ∧
    specSimpleSuffixToPypi "https://simple.example.org/simple" ++ "/foo/1.0/json" =
      "https://simple.example.org/pypi/foo/1.0/json" ∧
    (["https://pypi.example.org/pypi/foo/1.0/json"] : List String) ≠
      ["https://simple.example.org/pypi/foo/1.0/json"] :=
  ⟨by decide, by decide, by decide⟩

/-- C5 amended: the base path is the first repository's `index_url` with EVERY
occurrence of the substring `/simple` replaced by `/pypi` (Python
`str.replace`), or `https://pypi.org/pypi` when no repository is configured,
and the call fetches exactly `{base}/{name}/{version}/json`. -/
theorem apiUrl_construction :
    (∀ name version repos (ps : Bool) fetch sdistOf wheelsOf,
       pyTruthy version = true →
       (get_pypi_data_from_purl name version repos ps fetch sdistOf wheelsOf).2 =
         [apiUrlOf name version repos]) ∧
    basePathOf [] = "https://pypi.org/pypi" ∧
    (∀ r rest, basePathOf (r :: rest) =
       pyStringReplace r.index_url "/simple" "/pypi") ∧
    (∀ name version repos, apiUrlOf name version repos =
       basePathOf repos ++ "/" ++ name ++ "/" ++ version.getD "" ++ "/json") := by
  refine ⟨?_, rfl, fun r rest => rfl, fun name version repos => rfl⟩
  intro name version repos ps fetch sdistOf wheelsOf h
  cases hf : fetch (apiUrlOf name version repos) with
  | none => simp [get_pypi_data_from_purl, h, hf]
  | some r => simp [get_pypi_data_from_purl, h, hf]

/-- Witness for C5's amended theorem at a concrete input. -/
theorem apiUrl_construction_witness :
    (get_pypi_data_from_purl "foo" (some "1.0") [] false (fun _ => none)
        (fun _ => none) (fun _ => [])).2 = [apiUrlOf "foo" (some "1.0") []] :=
  apiUrl_construction.1 "foo" (some "1.0") [] false (fun _ => none)
    (fun _ => none) (fun _ => []) rfl

/-- C1: with the JSON API response present, the resolver's outcome is the
first-match walk of the ordered candidate list against the filename-keyed
index of the response's listed files: a lookup miss for every candidate gives
no result; the first candidate whose filename is indexed produces the record
with that entry's fields merged in, and no further candidate is tried; the
index is keyed by resolved filename with later duplicate filenames
overwriting earlier ones; matching is by filename equality alone — no hash
takes part. -/
theorem get_pypi_data_from_purl_matching :
    (∀ name version repos (ps : Bool) fetch sdistOf wheelsOf resp,
       pyTruthy version = true →
       fetch (apiUrlOf name version repos) = some resp →
       (get_pypi_data_from_purl name version repos ps fetch sdistOf wheelsOf).1 =
         Except.ok (matchCandidates
           (buildUrlsByFilename (apiUrlOf name version repos) resp.urls)
           (candidateUrls ps (get_sdist_download_url sdistOf repos)
             (get_wheel_download_urls wheelsOf repos)))) ∧
    (∀ index cands, matchCandidates index cands = none ↔
       ∀ d ∈ cands, index (urlFilename d) = none) ∧
    (∀ index pre d post e, (∀ d' ∈ pre, index (urlFilename d') = none) →
       index (urlFilename d) = some e →
       matchCandidates index (pre ++ d :: post) = some (mkPackageData d e)) ∧
    (∀ api entries e u, e.url = some u → u ≠ "" →
       buildUrlsByFilename api (entries ++ [e]) (entryKey api u) = some e) ∧
    (∀ d e, mkPackageData d e =
       ⟨d, e.size, pyOrStr e.digest_md5 e.md5_digest, e.digest_sha256,
        e.upload_time⟩) := by
  refine ⟨?_, ?_, ?_, ?_, fun d e => rfl⟩
  · intro name version repos ps fetch sdistOf wheelsOf resp h hf
    simp [get_pypi_data_from_purl, h, hf]
  · intro index cands
    induction cands with
    | nil => simp [matchCandidates]
    | cons d rest ih =>
      cases hd : index (urlFilename d) with
      | none => simp [matchCandidates, hd, ih]
      | some e => simp [matchCandidates, hd]
  · intro index pre d post e hpre hd
    induction pre with
    | nil => simp [matchCandidates, hd]
    | cons p ps ih =>
      have hp : index (urlFilename p) = none := hpre p (List.mem_cons_self p ps)
      simpa [matchCandidates, hp] using
        ih fun d' hd' => hpre d' (List.mem_cons_of_mem p hd')
  · intro api entries e u he hu
    simp [buildUrlsByFilename, List.foldl_append, he, hu, insertKey]

/-- Witness for C1 at a concrete input. -/
theorem get_pypi_data_from_purl_matching_witness :
    (get_pypi_data_from_purl "foo" (some "1.0") [] false
        (fun _ => some (PypiResponse.mk [])) (fun _ => none) (fun _ => [])).1 =
      Except.ok (matchCandidates
        (buildUrlsByFilename (apiUrlOf "foo" (some "1.0") [])
          (PypiResponse.mk []).urls)
        (candidateUrls false (get_sdist_download_url (fun _ => none) [])
          (get_wheel_download_urls (fun _ => []) []))) :=
  get_pypi_data_from_purl_matching.1 "foo" (some "1.0") [] false
    (fun _ => some (PypiResponse.mk [])) (fun _ => none) (fun _ => [])
    (PypiResponse.mk []) rfl rfl

end PythonInspector










